import Mathlib

/-!
# Fund analysis processor: shallow embedding

A shallow embedding of `fund_analysis_processor.py` (class
`FundAnalysisProcessor`).  Rows of the input spreadsheet are records over
the 11 required columns; numeric cells that may be missing (`NaN` in
pandas) are `Option ℚ`.  The four derived columns are carried as extra
fields of the record, `none` before derivation.

The derivation step mirrors `calculate_derived_columns`:
`groupby('Instrument Name').shift(1)` is modelled by `priorIndex`
(the closest earlier position holding the same instrument name), the
`np.where` guard on `Start Price` by `returnAt`, the global
percentage-vs-decimal heuristic by `holdingNeedsScaling`, and the two
`fillna(0)` calls by the total (`ℚ`-valued) `startWtAt` and
`contributionAt`.
-/

set_option maxRecDepth 4000

namespace FundAnalysis

/-- One spreadsheet row: the 11 required input columns of
`FundAnalysisProcessor.REQUIRED_COLUMNS`, followed by the four derived
columns (`Start Price`, `Monthly Stock Return%`, `Start wt%`,
`Stock Monthly Contribution %`), which are `none` until derivation runs. -/
structure Row where
  schemeCode : String
  schemeName : String
  month : String
  monthEnd : String
  instrumentName : String
  holding : Option ℚ
  sector : String
  mcap : String
  mcapType : String
  nseSymbol : String
  price : Option ℚ
  startPrice : Option ℚ := none
  monthlyReturn : Option ℚ := none
  startWt : Option ℚ := none
  contribution : Option ℚ := none
  deriving DecidableEq, Inhabited

/-- `FundAnalysisProcessor.REQUIRED_COLUMNS`. -/
def REQUIRED_COLUMNS : List String :=
  ["Scheme Code", "Scheme Name", "Month", "Month End", "Instrument Name",
   "Holding (%)", "Instrument Sector", "Instrument SEBI Mcap",
   "Instrument SEBI Mcap Type", "NSE Symbol", "Price"]

/-- `FundAnalysisProcessor.CALCULATED_COLUMNS`. -/
def CALCULATED_COLUMNS : List String :=
  ["Start Price", "Monthly Stock Return%", "Start wt%",
   "Stock Monthly Contribution %"]

/-- Strict lexicographic order on character lists by code point — the
comparison Python (and hence pandas `sort_values` on object columns)
applies to strings. -/
def lexLt : List Char → List Char → Bool
  | [], [] => false
  | [], _ :: _ => true
  | _ :: _, [] => false
  | a :: as, b :: bs =>
      if a.toNat < b.toNat then true
      else if b.toNat < a.toNat then false
      else lexLt as bs

theorem lexLt_cons (a b : Char) (as bs : List Char) :
    lexLt (a :: as) (b :: bs)
      = if a.toNat < b.toNat then true
        else if b.toNat < a.toNat then false
        else lexLt as bs := rfl

theorem lexLt_irrefl : ∀ l : List Char, lexLt l l = false := by
  intro l
  induction l with
  | nil => rfl
  | cons a as ih => rw [lexLt_cons, if_neg (lt_irrefl _), if_neg (lt_irrefl _)]; exact ih

theorem lexLt_trans (x : List Char) : ∀ y z : List Char,
    lexLt x y = true → lexLt y z = true → lexLt x z = true := by
  induction x with
  | nil =>
      intro y z hxy hyz
      cases y with
      | nil => cases hxy
      | cons b bs =>
          cases z with
          | nil => cases hyz
          | cons c cs => rfl
  | cons a as ih =>
      intro y z hxy hyz
      cases y with
      | nil => cases hxy
      | cons b bs =>
          cases z with
          | nil => cases hyz
          | cons c cs =>
              rw [lexLt_cons] at hxy hyz ⊢
              rcases Nat.lt_trichotomy a.toNat b.toNat with h1 | h1 | h1
              · rcases Nat.lt_trichotomy b.toNat c.toNat with h2 | h2 | h2
                · rw [if_pos (h1.trans h2)]
                · rw [if_pos (h2 ▸ h1)]
                · rw [if_neg (Nat.lt_asymm h2), if_pos h2] at hyz
                  cases hyz
              · have hab : a = b := Char.ext (UInt32.ext h1)
                subst hab
                rw [if_neg (lt_irrefl _), if_neg (lt_irrefl _)] at hxy
                rcases Nat.lt_trichotomy a.toNat c.toNat with h2 | h2 | h2
                · rw [if_pos h2]
                · have hac : a = c := Char.ext (UInt32.ext h2)
                  subst hac
                  rw [if_neg (lt_irrefl _), if_neg (lt_irrefl _)] at hyz ⊢
                  exact ih bs cs hxy hyz
                · rw [if_neg (Nat.lt_asymm h2), if_pos h2] at hyz
                  cases hyz
              · rw [if_neg (Nat.lt_asymm h1), if_pos h1] at hxy
                cases hxy

theorem lexLt_eq_of_not (x : List Char) : ∀ y : List Char,
    lexLt x y = false → lexLt y x = false → x = y := by
  induction x with
  | nil =>
      intro y hxy _
      cases y with
      | nil => rfl
      | cons b bs => cases hxy
  | cons a as ih =>
      intro y hxy hyx
      cases y with
      | nil => cases hyx
      | cons b bs =>
          rw [lexLt_cons] at hxy hyx
          rcases Nat.lt_trichotomy a.toNat b.toNat with h1 | h1 | h1
          · rw [if_pos h1] at hxy; cases hxy
          · have hab : a = b := Char.ext (UInt32.ext h1)
            subst hab
            rw [if_neg (lt_irrefl _), if_neg (lt_irrefl _)] at hxy hyx
            rw [ih bs hxy hyx]
          · rw [if_pos h1] at hyx; cases hyx

theorem lexLt_asymm (x y : List Char) (h : lexLt x y = true) :
    lexLt y x = false := by
  by_contra hc
  have hyx : lexLt y x = true := by
    cases hxx : lexLt y x with
    | true => rfl
    | false => exact absurd hxx hc
  have := lexLt_trans x y x h hyx
  rw [lexLt_irrefl] at this
  cases this

/-- Strict string comparison, by code points. -/
def strLt (a b : String) : Bool := lexLt a.data b.data

/-- Non-strict string comparison: `a ≤ b` iff not `b < a`. -/
def strLe (a b : String) : Bool := !(strLt b a)

/-- The two-key sort order of
`df.sort_values(['Instrument Name', 'Month'], ascending=[True, True])`:
primary key the instrument name, secondary key the month label, both
under their native (lexicographic, by code point) string comparison. -/
def keyLE (a b : Row) : Prop :=
  strLt a.instrumentName b.instrumentName = true ∨
    (a.instrumentName = b.instrumentName ∧ strLe a.month b.month = true)

instance : DecidableRel keyLE := fun a b => by
  unfold keyLE; infer_instance

theorem strLt_eq_of_not (a b : String) (h1 : strLt a b = false)
    (h2 : strLt b a = false) : a = b :=
  String.ext (lexLt_eq_of_not a.data b.data h1 h2)

theorem strLe_total (a b : String) : strLe a b = true ∨ strLe b a = true := by
  unfold strLe
  cases h : strLt b a with
  | false => exact Or.inl rfl
  | true =>
      refine Or.inr ?_
      have hf : strLt a b = false := lexLt_asymm b.data a.data h
      rw [hf]
      rfl

theorem strLe_trans (a b c : String) (h1 : strLe a b = true)
    (h2 : strLe b c = true) : strLe a c = true := by
  unfold strLe at h1 h2 ⊢
  cases hca : strLt c a with
  | false => rfl
  | true =>
      exfalso
      have hba : strLt b a = false := by
        cases hx : strLt b a with
        | false => rfl
        | true => rw [hx] at h1; cases h1
      have hcb : strLt c b = false := by
        cases hx : strLt c b with
        | false => rfl
        | true => rw [hx] at h2; cases h2
      cases hab : strLt a b with
      | false =>
          have : a = b := strLt_eq_of_not a b hab hba
          subst this
          rw [hca] at hcb
          cases hcb
      | true =>
          have : strLt c b = true := lexLt_trans _ _ _ hca hab
          rw [this] at hcb
          cases hcb

instance : IsTotal Row keyLE where
  total a b := by
    cases h1 : strLt a.instrumentName b.instrumentName with
    | true => exact Or.inl (Or.inl h1)
    | false =>
        cases h2 : strLt b.instrumentName a.instrumentName with
        | true => exact Or.inr (Or.inl h2)
        | false =>
            have he : a.instrumentName = b.instrumentName :=
              strLt_eq_of_not _ _ h1 h2
            rcases strLe_total a.month b.month with hm | hm
            · exact Or.inl (Or.inr ⟨he, hm⟩)
            · exact Or.inr (Or.inr ⟨he.symm, hm⟩)

instance : IsTrans Row keyLE where
  trans a b c hab hbc := by
    rcases hab with h1 | ⟨e1, m1⟩
    · rcases hbc with h2 | ⟨e2, _⟩
      · exact Or.inl (lexLt_trans _ _ _ h1 h2)
      · exact Or.inl (e2 ▸ h1)
    · rcases hbc with h2 | ⟨e2, m2⟩
      · exact Or.inl (e1 ▸ h2)
      · exact Or.inr ⟨e1.trans e2, strLe_trans _ _ _ m1 m2⟩

/-- The sort performed by `load_data`. -/
def sortRows (rows : List Row) : List Row :=
  List.insertionSort keyLE rows

/-- The load-stage failures: `EmptyInputError` is the
`ValueError("Input Excel file is empty")` raised when the frame has no
rows; `SchemaError` is the `ValueError` raised by `_validate_columns`,
carrying the missing-column list and the list of columns actually found. -/
inductive LoadError where
  | emptyInput : LoadError
  | schemaError (missing found : List String) : LoadError
  deriving DecidableEq

/-- A raw tabular source as read from the spreadsheet: the header (column
names actually present) plus the data rows.  Row fields for columns not
listed in `columns` carry no meaning and are never consulted by the
loader's validation logic. -/
structure RawInput where
  columns : List String
  rows : List Row
  deriving DecidableEq

/-- `_validate_columns`: the required columns absent from the source, in
`REQUIRED_COLUMNS` order. -/
def missingColumns (input : RawInput) : List String :=
  REQUIRED_COLUMNS.filter (fun c => decide (c ∉ input.columns))

instance {ε α : Type} [DecidableEq ε] [DecidableEq α] :
    DecidableEq (Except ε α) := fun
  | .error e, .error f =>
      if h : e = f then isTrue (by rw [h])
      else isFalse (fun hh => h (Except.error.inj hh))
  | .error _, .ok _ => isFalse Except.noConfusion
  | .ok _, .error _ => isFalse Except.noConfusion
  | .ok a, .ok b =>
      if h : a = b then isTrue (by rw [h])
      else isFalse (fun hh => h (Except.ok.inj hh))

/-- `FundAnalysisProcessor.load_data`: fail on an empty frame, then
validate the schema, then sort by (instrument name, month) and
`reset_index(drop=True)` — the result pairs each row with its new
contiguous position. -/
def load_data (input : RawInput) : Except LoadError (List (Nat × Row)) :=
  if input.rows.isEmpty then
    .error .emptyInput
  else if missingColumns input ≠ [] then
    .error (.schemaError (missingColumns input) input.columns)
  else
    .ok (sortRows input.rows).enum

/-- The position of the immediately preceding row of the same instrument
group: the largest `j < i` with `rows[j].instrumentName =
rows[i].instrumentName`.  This is the row that
`groupby('Instrument Name').shift(1)` reads from at position `i`. -/
def priorIndex (rows : List Row) (i : Nat) : Option Nat :=
  match rows[i]? with
  | none => none
  | some ri =>
      (List.range i).reverse.find? (fun j =>
        match rows[j]? with
        | some rj => rj.instrumentName == ri.instrumentName
        | none => false)

/-- `Start Price` at position `i`:
`df.groupby('Instrument Name')['Price'].shift(1)`. -/
def startPriceAt (rows : List Row) (i : Nat) : Option ℚ :=
  (priorIndex rows i).bind (fun j => (rows[j]?).bind Row.price)

/-- The `Price` cell at position `i`. -/
def priceAt (rows : List Row) (i : Nat) : Option ℚ :=
  (rows[i]?).bind Row.price

/-- `Monthly Stock Return%` at position `i`:
`np.where(startPrice.notna() & (startPrice != 0), price/startPrice - 1, nan)`.
The division is taken only when the prior price is present and non-zero;
a missing current price propagates to a missing return. -/
def returnAt (rows : List Row) (i : Nat) : Option ℚ :=
  match startPriceAt rows i with
  | some p => if p = 0 then none else (priceAt rows i).map (fun x => x / p - 1)
  | none => none

/-- The non-null values of the `Holding (%)` column, in row order. -/
def holdings (rows : List Row) : List ℚ :=
  rows.filterMap Row.holding

/-- `sample_values.abs().max()` over the non-null holdings, `0` when the
column is entirely null (in which case the code skips the conversion). -/
def maxAbsHolding (rows : List Row) : ℚ :=
  (holdings rows).foldl (fun m w => max m |w|) 0

/-- The single global normalization decision: `max_value > 1` in
`calculate_derived_columns`. -/
def holdingNeedsScaling (rows : List Row) : Bool :=
  decide (1 < maxAbsHolding rows)

/-- A holding cell after the global percentage-to-decimal conversion
(`holding_values / 100` when the table-wide decision fired). -/
def scaledHolding (rows : List Row) (h : Option ℚ) : Option ℚ :=
  if holdingNeedsScaling rows then h.map (fun w => w / 100) else h

/-- `Start wt%` at position `i`: the previous same-instrument row's
(possibly normalized) holding, with `fillna(0)` — so `0` both when the
group has no earlier row and when the earlier row's holding is null. -/
def startWtAt (rows : List Row) (i : Nat) : ℚ :=
  match (priorIndex rows i).bind
      (fun j => (rows[j]?).bind (fun rj => scaledHolding rows rj.holding)) with
  | some w => w
  | none => 0

/-- `Stock Monthly Contribution %` at position `i`:
`Start wt% * Monthly Stock Return%`, with `fillna(0)` — a null return
yields `0`, never null. -/
def contributionAt (rows : List Row) (i : Nat) : ℚ :=
  match returnAt rows i with
  | some ret => startWtAt rows i * ret
  | none => 0

/-- Overwrite the four derived columns of the row at position `i`. -/
def deriveRow (rows : List Row) (i : Nat) (r : Row) : Row :=
  { r with
    startPrice := startPriceAt rows i,
    monthlyReturn := returnAt rows i,
    startWt := some (startWtAt rows i),
    contribution := some (contributionAt rows i) }

/-- `FundAnalysisProcessor.calculate_derived_columns`: recompute and
overwrite the four derived columns of every row. -/
def calculate_derived_columns (rows : List Row) : List Row :=
  rows.enum.map (fun p => deriveRow rows p.1 p.2)

/-- The value summed by the pivot tables: the
`Stock Monthly Contribution %` cell (`0` when absent — pandas `sum`
skips NaN, and after derivation the cell is always present). -/
def contribOf (r : Row) : ℚ :=
  r.contribution.getD 0

/-- Sorted deduplicated key values, as pandas `pivot_table` orders its
index and columns. -/
def dedupSort (l : List String) : List String :=
  List.insertionSort (fun a b => strLe a b = true) l.dedup

/-- `margins_name='Grand Total'`. -/
def marginName : String := "Grand Total"

/-- A 2-D cross-tabulation: row labels, column labels (each ending in the
margin label), and the numeric entry at every (row label, column label). -/
structure CrossTab where
  rowLabels : List String
  colLabels : List String
  entry : String → String → ℚ

/-- A data cell: the sum of `Stock Monthly Contribution %` over the rows
matching the (dimension value, `Month End`) pair; `0` when no row
matches (`fill_value=0`). -/
def pivotCell (dim : Row → String) (rows : List Row) (d m : String) : ℚ :=
  ((rows.filter (fun r => decide (dim r = d) && decide (r.monthEnd = m))).map
    contribOf).sum

/-- A margin-column cell: the aggregate over all rows with the given
dimension value, every period together. -/
def rowMargin (dim : Row → String) (rows : List Row) (d : String) : ℚ :=
  ((rows.filter (fun r => decide (dim r = d))).map contribOf).sum

/-- A margin-row cell: the aggregate over all rows with the given
`Month End`, every dimension value together. -/
def colMargin (rows : List Row) (m : String) : ℚ :=
  ((rows.filter (fun r => decide (r.monthEnd = m))).map contribOf).sum

/-- The grand total: the sum of `Stock Monthly Contribution %` over the
whole table. -/
def grandMargin (rows : List Row) : ℚ :=
  (rows.map contribOf).sum

/-- `pd.pivot_table(df, values='Stock Monthly Contribution %', index=dim,
columns='Month End', aggfunc='sum', fill_value=0, margins=True,
margins_name='Grand Total')`: sorted distinct keys with the margin
appended last on both axes. -/
def pivot_table (dim : Row → String) (rows : List Row) : CrossTab where
  rowLabels := dedupSort (rows.map dim) ++ [marginName]
  colLabels := dedupSort (rows.map Row.monthEnd) ++ [marginName]
  entry := fun d m =>
    if d = marginName then
      (if m = marginName then grandMargin rows else colMargin rows m)
    else if m = marginName then rowMargin dim rows d
    else pivotCell dim rows d m

/-- `FundAnalysisProcessor.create_pivot_tables`: the company, sector and
market-cap cross-tabulations, in that order. -/
def create_pivot_tables (rows : List Row) : CrossTab × CrossTab × CrossTab :=
  (pivot_table Row.instrumentName rows,
   pivot_table Row.sector rows,
   pivot_table Row.mcapType rows)

/-- The write-stage failure of `save_output` (`PermissionError` and other
I/O failures re-raised by the writer). -/
inductive WriteError where
  | cannotWrite : WriteError
  deriving DecidableEq

/-- The produced artifact: the four sheets in order, the serialized table
and pivots (stored values — display formatting never changes them), the
flag recording whether percentage display formatting was applied, and the
warnings logged along the way. -/
structure SavedOutput where
  sheetNames : List String
  processedData : List Row
  companyPivot : CrossTab
  sectorPivot : CrossTab
  marketCapPivot : CrossTab
  percentFormatted : Bool
  warnings : List String

/-- `_format_percentage_columns`: the whole body runs under
`try/except Exception`; on failure the workbook is left as written (raw
numeric values) and a warning is logged; on success only the display
format of the percentage cells changes, never a stored value. -/
def format_percentage_columns (out : SavedOutput) (fmtFails : Bool) :
    SavedOutput :=
  if fmtFails then
    { out with
      warnings := out.warnings ++ ["Could not format percentage columns"] }
  else
    { out with percentFormatted := true }

/-- `FundAnalysisProcessor.save_output`: write the four named sheets in
fixed order, then attempt percentage formatting.  `writeFails` models the
writer raising (re-raised as a write failure); `fmtFails` models the
formatting step raising inside its own `try/except`. -/
def save_output (rows : List Row) (pivots : CrossTab × CrossTab × CrossTab)
    (writeFails fmtFails : Bool) : Except WriteError SavedOutput :=
  if writeFails then
    .error .cannotWrite
  else
    .ok (format_percentage_columns
      { sheetNames := ["Processed Data", "Company Pivot", "Sector Pivot",
                       "Market Cap Pivot"],
        processedData := rows,
        companyPivot := pivots.1,
        sectorPivot := pivots.2.1,
        marketCapPivot := pivots.2.2,
        percentFormatted := false,
        warnings := [] } fmtFails)

/-! ## Concrete tables used by the witness theorems -/

/-- A row with fixed filler values in the columns the derivation never
reads. -/
def mkRow (inst mon : String) (holding price : Option ℚ) : Row :=
  { schemeCode := "SC001", schemeName := "Alpha Fund", month := mon,
    monthEnd := mon, instrumentName := inst, holding := holding,
    sector := "Technology", mcap := "10000", mcapType := "Large Cap",
    nseSymbol := "TICK", price := price }

/-- One instrument, two periods, prices 100 then 110, weights 0.10 then
0.12 (the spec's worked scenario). -/
def w1rows : List Row :=
  [mkRow "ACME" "2024-01" (some (1/10)) (some 100),
   mkRow "ACME" "2024-02" (some (12/100)) (some 110)]

/-- The second derived row of `w1rows`. -/
def w1row : Row :=
  { mkRow "ACME" "2024-02" (some (12/100)) (some 110) with
    startPrice := some 100, monthlyReturn := some (1/10),
    startWt := some (1/10), contribution := some (1/100) }

/-- One instrument, two periods, holdings of mixed magnitude
(2 and 0.5): the global maximum exceeds 1. -/
def w2rows : List Row :=
  [mkRow "ACME" "2024-01" (some 2) (some 100),
   mkRow "ACME" "2024-02" (some (1/2)) (some 110)]

/-- The first (input) row of `w2rows`. -/
def w2row0 : Row := mkRow "ACME" "2024-01" (some 2) (some 100)

/-- The second derived row of `w2rows`: the prior weight is the prior
holding divided by 100. -/
def w2row : Row :=
  { mkRow "ACME" "2024-02" (some (1/2)) (some 110) with
    startPrice := some 100, monthlyReturn := some (1/10),
    startWt := some (1/50), contribution := some (1/500) }

/-- A schema-complete one-row source. -/
def w6input : RawInput :=
  { columns := REQUIRED_COLUMNS,
    rows := [mkRow "AAA" "2024-01" (some (1/10)) (some 100)] }

/-- A source with zero rows **and** a missing required column (`Price`):
the overlap case deciding the precedence of the two load-stage errors. -/
def c6cex : RawInput :=
  { columns := ["Scheme Code", "Scheme Name", "Month", "Month End",
                "Instrument Name", "Holding (%)", "Instrument Sector",
                "Instrument SEBI Mcap", "Instrument SEBI Mcap Type",
                "NSE Symbol"],
    rows := [] }

/-- A schema-complete two-row source whose rows arrive out of order. -/
def w8input : RawInput :=
  { columns := REQUIRED_COLUMNS,
    rows := [mkRow "BBB" "2024-01" (some (1/10)) (some 100),
             mkRow "AAA" "2024-02" (some (2/10)) (some 50)] }

/-- The loaded table of `w8input`: sorted by instrument and renumbered. -/
def w8t : List (Nat × Row) :=
  [(0, mkRow "AAA" "2024-02" (some (2/10)) (some 50)),
   (1, mkRow "BBB" "2024-01" (some (1/10)) (some 100))]

/-- Two instruments over two periods for the cross-tabulation witness. -/
def w3rows : List Row :=
  [mkRow "AAA" "2024-01" (some (1/10)) (some 100),
   mkRow "BBB" "2024-02" (some (2/10)) (some 50)]

/-- A sorted two-period single-instrument table for the group-first-row
witness. -/
def w4rows : List Row :=
  [mkRow "AAA" "2024-01" (some (1/10)) (some 100),
   mkRow "AAA" "2024-02" (some (2/10)) (some 110)]

/-- The first (input) row of `w4rows`. -/
def w4row0 : Row := mkRow "AAA" "2024-01" (some (1/10)) (some 100)

/-- One instrument, two periods, with a zero first price. -/
def w7rows : List Row :=
  [mkRow "ZED" "2024-01" (some (2/10)) (some 0),
   mkRow "ZED" "2024-02" (some (3/10)) (some 5)]

/-- The second derived row of `w7rows`: zero prior price. -/
def w7row : Row :=
  { mkRow "ZED" "2024-02" (some (3/10)) (some 5) with
    startPrice := some 0, monthlyReturn := none,
    startWt := some (2/10), contribution := some 0 }

/-- One instrument, two periods, with a null first holding weight. -/
def w10rows : List Row :=
  [mkRow "ACME" "2024-01" none (some 100),
   mkRow "ACME" "2024-02" (some (5/10)) (some 110)]

/-- The first (input) row of `w10rows`: null holding. -/
def w10row0 : Row := mkRow "ACME" "2024-01" none (some 100)

/-- The second derived row of `w10rows`: prior weight filled to `0`. -/
def w10row : Row :=
  { mkRow "ACME" "2024-02" (some (5/10)) (some 110) with
    startPrice := some 100, monthlyReturn := some (1/10),
    startWt := some 0, contribution := some 0 }

/-! ## Basic facts about the derivation step -/

theorem calc_getElem? (rows : List Row) (i : Nat) :
    (calculate_derived_columns rows)[i]? = (rows[i]?).map (deriveRow rows i) := by
  unfold calculate_derived_columns
  rw [List.getElem?_map, List.getElem?_enum]
  cases rows[i]? <;> rfl

theorem calc_length (rows : List Row) :
    (calculate_derived_columns rows).length = rows.length := by
  unfold calculate_derived_columns
  rw [List.length_map, List.enum_length]

theorem calc_src (rows : List Row) (i : Nat) (r : Row)
    (h : (calculate_derived_columns rows)[i]? = some r) :
    ∃ ri, rows[i]? = some ri ∧ r = deriveRow rows i ri := by
  rw [calc_getElem?] at h
  cases hri : rows[i]? with
  | none => rw [hri] at h; exact absurd h (by simp)
  | some ri =>
      rw [hri] at h
      exact ⟨ri, rfl, (Option.some.inj h).symm⟩

theorem returnAt_of_degenerate (rows : List Row) (i : Nat)
    (h : startPriceAt rows i = none ∨ startPriceAt rows i = some 0) :
    returnAt rows i = none := by
  unfold returnAt
  rcases h with h | h <;> (rw [h]; try simp)

theorem contributionAt_of_return_none (rows : List Row) (i : Nat)
    (h : returnAt rows i = none) : contributionAt rows i = 0 := by
  unfold contributionAt
  rw [h]

theorem scaledHolding_none (rows : List Row) :
    scaledHolding rows none = none := by
  unfold scaledHolding
  split <;> rfl

/-! ## Claim theorems (first group) -/

/-- C1.  For every row of the derived table whose prior price
(`Start Price`, the previous same-instrument row's price) is defined and
non-zero, the derived period return is `(price / prior_price) - 1`
(null-propagating in the current price); for every row whose prior price
is null or zero, the period return is null. -/
theorem c1_period_return (rows : List Row) (i : Nat) (r : Row)
    (h : (calculate_derived_columns rows)[i]? = some r) :
    (∀ p, r.startPrice = some p → p ≠ 0 →
      r.monthlyReturn = r.price.map (fun x => x / p - 1))
    ∧ ((r.startPrice = none ∨ r.startPrice = some 0) →
      r.monthlyReturn = none) := by
  obtain ⟨ri, hri, rfl⟩ := calc_src rows i r h
  constructor
  · intro p hp hp0
    show returnAt rows i = ri.price.map (fun x => x / p - 1)
    have hsp : startPriceAt rows i = some p := hp
    unfold returnAt
    rw [hsp]
    show (if p = 0 then none else (priceAt rows i).map fun x => x / p - 1)
      = ri.price.map fun x => x / p - 1
    rw [if_neg hp0]
    unfold priceAt
    rw [hri, Option.some_bind]
  · intro hor
    exact returnAt_of_degenerate rows i hor

/-- Witness for C1 at `w1rows`, row 1: prior price 100, price 110,
return 1/10. -/
theorem c1_witness :
    (calculate_derived_columns w1rows)[1]? = some w1row
    ∧ ((∀ p, w1row.startPrice = some p → p ≠ 0 →
        w1row.monthlyReturn = w1row.price.map (fun x => x / p - 1))
      ∧ ((w1row.startPrice = none ∨ w1row.startPrice = some 0) →
        w1row.monthlyReturn = none)) :=
  ⟨by with_unfolding_all decide,
   c1_period_return w1rows 1 w1row (by with_unfolding_all decide)⟩

/-- C7.  The derivation step is a total function of the table: it always
produces a derived table of the same length (no error is raised), and on
every row whose prior price is null or zero the return is null and the
contribution is zero — the division in the return formula only
contributes under the non-zero prior-price guard. -/
theorem c7_derivation_never_fails (rows : List Row) :
    (calculate_derived_columns rows).length = rows.length
    ∧ ∀ (i : Nat) (r : Row), (calculate_derived_columns rows)[i]? = some r →
        (r.startPrice = none ∨ r.startPrice = some 0) →
        r.monthlyReturn = none ∧ r.contribution = some 0 := by
  refine ⟨calc_length rows, ?_⟩
  intro i r h hor
  obtain ⟨ri, hri, rfl⟩ := calc_src rows i r h
  have hret : returnAt rows i = none := returnAt_of_degenerate rows i hor
  constructor
  · exact hret
  · show some (contributionAt rows i) = some 0
    rw [contributionAt_of_return_none rows i hret]

theorem lt_foldl_max (c a : ℚ) (ws : List ℚ) :
    (c < ws.foldl (fun m w => max m |w|) a) ↔ c < a ∨ ∃ w ∈ ws, c < |w| := by
  induction ws generalizing a with
  | nil => simp
  | cons w ws ih =>
      rw [List.foldl_cons, ih]
      simp [lt_max_iff, or_assoc]

theorem needsScaling_iff (rows : List Row) :
    holdingNeedsScaling rows = true ↔ ∃ w ∈ holdings rows, 1 < |w| := by
  unfold holdingNeedsScaling maxAbsHolding
  rw [decide_eq_true_iff, lt_foldl_max]
  constructor
  · rintro (h | h)
    · exact absurd h (by norm_num)
    · exact h
  · intro h
    exact Or.inr h

theorem scaledHolding_some (rows : List Row) (w : ℚ) :
    scaledHolding rows (some w)
      = if holdingNeedsScaling rows then some (w / 100) else some w := by
  unfold scaledHolding
  split <;> rfl

theorem startWtAt_of_prior (rows : List Row) (i j : Nat) (rj : Row) (w : ℚ)
    (hj : priorIndex rows i = some j) (hrj : rows[j]? = some rj)
    (hw : rj.holding = some w) :
    startWtAt rows i
      = if holdingNeedsScaling rows then w / 100 else w := by
  have hbind : (priorIndex rows i).bind
      (fun j => (rows[j]?).bind fun rj => scaledHolding rows rj.holding)
        = scaledHolding rows (some w) := by
    rw [hj, Option.some_bind, hrj, Option.some_bind, hw]
  unfold startWtAt
  rw [hbind, scaledHolding_some]
  cases hs : holdingNeedsScaling rows <;> rfl

/-- C2.  The weight-normalization decision is one global decision: the
code divides by 100 exactly when some non-null holding weight in the
whole table exceeds 1 in absolute value, and then every row's prior
weight is the preceding same-group row's weight divided by 100 (whatever
that row's own magnitude); when the global maximum is at most 1 no
weight is divided. -/
theorem c2_global_weight_scaling (rows : List Row) :
    (holdingNeedsScaling rows = true ↔ ∃ w ∈ holdings rows, 1 < |w|)
    ∧ ∀ (i j : Nat) (r rj : Row) (w : ℚ),
        (calculate_derived_columns rows)[i]? = some r →
        priorIndex rows i = some j → rows[j]? = some rj →
        rj.holding = some w →
        (holdingNeedsScaling rows = true → r.startWt = some (w / 100))
        ∧ (holdingNeedsScaling rows = false → r.startWt = some w) := by
  refine ⟨needsScaling_iff rows, ?_⟩
  intro i j r rj w h hj hrj hw
  obtain ⟨ri, hri, rfl⟩ := calc_src rows i r h
  have hwt := startWtAt_of_prior rows i j rj w hj hrj hw
  constructor
  · intro hs
    show some (startWtAt rows i) = some (w / 100)
    rw [hwt, hs, if_pos rfl]
  · intro hs
    show some (startWtAt rows i) = some w
    rw [hwt, hs]
    rfl

/-- Witness for C2 at `w2rows`, row 1: the global maximum 2 exceeds 1
and the prior weight of the second row (own weight 0.5) is 2/100. -/
theorem c2_witness :
    (calculate_derived_columns w2rows)[1]? = some w2row
    ∧ priorIndex w2rows 1 = some 0
    ∧ w2rows[0]? = some w2row0
    ∧ w2row0.holding = some 2
    ∧ holdingNeedsScaling w2rows = true
    ∧ w2row.startWt = some ((2 : ℚ) / 100) := by
  have h : (calculate_derived_columns w2rows)[1]? = some w2row := by
    with_unfolding_all decide
  have hs : holdingNeedsScaling w2rows = true := by with_unfolding_all decide
  refine ⟨h, by with_unfolding_all decide, by with_unfolding_all decide,
    by with_unfolding_all decide, hs, ?_⟩
  exact (((c2_global_weight_scaling w2rows).2 1 0 w2row w2row0 2
    h (by with_unfolding_all decide) (by with_unfolding_all decide)
    (by with_unfolding_all decide)).1 hs)

/-- Witness for C7 at `w7rows`, row 1: zero prior price gives a null
return and a zero (non-null) contribution. -/
theorem c7_witness :
    (calculate_derived_columns w7rows)[1]? = some w7row
    ∧ (w7row.startPrice = none ∨ w7row.startPrice = some 0)
    ∧ (w7row.monthlyReturn = none ∧ w7row.contribution = some 0) :=
  ⟨by with_unfolding_all decide,
   by with_unfolding_all decide,
   (c7_derivation_never_fails w7rows).2 1 w7row
     (by with_unfolding_all decide) (by with_unfolding_all decide)⟩

/-- C10.  After derivation the `Start wt%` column is null-free: every
derived row's prior weight is a number, it is `0` whenever the
immediately preceding same-group row has a null holding weight (not only
for a group's first row), and the weighted contribution is likewise
always a number. -/
theorem c10_start_wt_never_null (rows : List Row) (i : Nat) (r : Row)
    (h : (calculate_derived_columns rows)[i]? = some r) :
    r.startWt.isSome = true
    ∧ (∀ j rj, priorIndex rows i = some j → rows[j]? = some rj →
        rj.holding = none → r.startWt = some 0)
    ∧ r.contribution.isSome = true := by
  obtain ⟨ri, hri, rfl⟩ := calc_src rows i r h
  refine ⟨rfl, ?_, rfl⟩
  intro j rj hj hrj hw
  show some (startWtAt rows i) = some 0
  have hnone : (priorIndex rows i).bind
      (fun j => (rows[j]?).bind fun rj => scaledHolding rows rj.holding)
        = none := by
    rw [hj, Option.some_bind, hrj, Option.some_bind, hw, scaledHolding_none]
  unfold startWtAt
  rw [hnone]

/-- Witness for C10 at `w10rows`, row 1: the preceding row's holding is
null, yet the derived prior weight is `some 0` and the contribution a
number. -/
theorem c10_witness :
    (calculate_derived_columns w10rows)[1]? = some w10row
    ∧ priorIndex w10rows 1 = some 0
    ∧ w10rows[0]? = some w10row0
    ∧ w10row0.holding = none
    ∧ (w10row.startWt.isSome = true ∧ w10row.startWt = some 0
        ∧ w10row.contribution.isSome = true) := by
  have h : (calculate_derived_columns w10rows)[1]? = some w10row := by
    with_unfolding_all decide
  have hT := c10_start_wt_never_null w10rows 1 w10row h
  exact ⟨h, by with_unfolding_all decide, by with_unfolding_all decide,
    by with_unfolding_all decide, hT.1,
    hT.2.1 0 w10row0 (by with_unfolding_all decide)
      (by with_unfolding_all decide) (by with_unfolding_all decide),
    hT.2.2⟩

theorem priorIndex_eq_none (rows : List Row) (i : Nat) (ri : Row)
    (hi : rows[i]? = some ri)
    (h : ∀ (j : Nat) (rj : Row), j < i → rows[j]? = some rj →
        rj.instrumentName ≠ ri.instrumentName) :
    priorIndex rows i = none := by
  unfold priorIndex
  rw [hi, List.find?_eq_none]
  intro j hj
  rw [List.mem_reverse, List.mem_range] at hj
  cases hrj : rows[j]? with
  | none => simp
  | some rj =>
      show ¬(rj.instrumentName == ri.instrumentName) = true
      simp only [beq_iff_eq]
      exact fun he => h j rj hj hrj he

theorem sorted_pair {rows : List Row} (hs : List.Sorted keyLE rows)
    {j i : Nat} {a b : Row} (hij : j < i)
    (hj : rows[j]? = some a) (hi : rows[i]? = some b) : keyLE a b := by
  obtain ⟨hjl, hja⟩ := List.getElem?_eq_some.mp hj
  obtain ⟨hil, hib⟩ := List.getElem?_eq_some.mp hi
  have hp := List.pairwise_iff_get.mp hs ⟨j, hjl⟩ ⟨i, hil⟩ hij
  simp only [List.get_eq_getElem] at hp
  rw [hja, hib] at hp
  exact hp

/-- C4.  In a table sorted by (instrument, month) — as `load_data`
guarantees — a row that is strictly first in period order within its
instrument group derives a null prior price, a prior weight of `0` (not
null), and a weighted contribution of `0`. -/
theorem c4_group_first_row (rows : List Row) (i : Nat) (ri : Row)
    (hsort : List.Sorted keyLE rows)
    (hi : rows[i]? = some ri)
    (hfirst : ∀ j, j < rows.length → j ≠ i →
        (rows.getD j default).instrumentName = ri.instrumentName →
        strLt ri.month (rows.getD j default).month = true) :
    (calculate_derived_columns rows)[i]? =
      some { ri with startPrice := none, monthlyReturn := none,
                     startWt := some 0, contribution := some 0 } := by
  have hnone : priorIndex rows i = none := by
    apply priorIndex_eq_none rows i ri hi
    intro j rj hj hrj heq
    have hjl : j < rows.length := (List.getElem?_eq_some.mp hrj).1
    have hgd : rows.getD j default = rj := by
      rw [List.getD_eq_getElem?_getD, hrj]
      rfl
    have hlt := hfirst j hjl (Nat.ne_of_lt hj) (by rw [hgd]; exact heq)
    rw [hgd] at hlt
    have hk := sorted_pair hsort hj hrj hi
    rcases hk with hk | ⟨he, hle⟩
    · rw [heq] at hk
      unfold strLt at hk
      rw [lexLt_irrefl] at hk
      cases hk
    · unfold strLe at hle
      rw [hlt] at hle
      cases hle
  have h1 : startPriceAt rows i = none := by
    unfold startPriceAt
    rw [hnone]
    rfl
  have h2 : returnAt rows i = none := returnAt_of_degenerate rows i (Or.inl h1)
  have h3 : startWtAt rows i = 0 := by
    unfold startWtAt
    rw [hnone]
    rfl
  have h4 : contributionAt rows i = 0 := contributionAt_of_return_none rows i h2
  rw [calc_getElem?, hi]
  show some (deriveRow rows i ri) = _
  unfold deriveRow
  rw [h1, h2, h3, h4]

/-- Witness for C4 at `w4rows`, row 0: the sorted table's group-first row
derives null prior price, zero prior weight, zero contribution. -/
theorem c4_witness :
    List.Sorted keyLE w4rows
    ∧ w4rows[0]? = some w4row0
    ∧ (∀ j, j < w4rows.length → j ≠ 0 →
        (w4rows.getD j default).instrumentName = w4row0.instrumentName →
        strLt w4row0.month (w4rows.getD j default).month = true)
    ∧ (calculate_derived_columns w4rows)[0]? =
        some { w4row0 with startPrice := none, monthlyReturn := none,
                           startWt := some 0, contribution := some 0 } := by
  have hsort : List.Sorted keyLE w4rows := by with_unfolding_all decide
  have hi : w4rows[0]? = some w4row0 := by with_unfolding_all decide
  have hfirst : ∀ j, j < w4rows.length → j ≠ 0 →
      (w4rows.getD j default).instrumentName = w4row0.instrumentName →
      strLt w4row0.month (w4rows.getD j default).month = true := by
    with_unfolding_all decide
  exact ⟨hsort, hi, hfirst, c4_group_first_row w4rows 0 w4row0 hsort hi hfirst⟩

/-! ## Idempotence of the derivation step -/

theorem priorIndex_calc (rows : List Row) (i : Nat) :
    priorIndex (calculate_derived_columns rows) i = priorIndex rows i := by
  unfold priorIndex
  rw [calc_getElem?]
  cases hri : rows[i]? with
  | none => rfl
  | some ri =>
      show (List.range i).reverse.find? _ = (List.range i).reverse.find? _
      congr 1
      funext j
      rw [calc_getElem?]
      cases rows[j]? <;> rfl

theorem startPriceAt_calc (rows : List Row) (i : Nat) :
    startPriceAt (calculate_derived_columns rows) i = startPriceAt rows i := by
  unfold startPriceAt
  rw [priorIndex_calc]
  cases priorIndex rows i with
  | none => rfl
  | some j =>
      show ((calculate_derived_columns rows)[j]?).bind Row.price
        = (rows[j]?).bind Row.price
      rw [calc_getElem?]
      cases rows[j]? <;> rfl

theorem priceAt_calc (rows : List Row) (i : Nat) :
    priceAt (calculate_derived_columns rows) i = priceAt rows i := by
  unfold priceAt
  rw [calc_getElem?]
  cases rows[i]? <;> rfl

theorem holdings_calc (rows : List Row) :
    holdings (calculate_derived_columns rows) = holdings rows := by
  unfold holdings calculate_derived_columns
  rw [List.filterMap_map]
  conv_rhs => rw [← List.enum_map_snd rows, List.filterMap_map]
  congr 1

theorem needsScaling_calc (rows : List Row) :
    holdingNeedsScaling (calculate_derived_columns rows)
      = holdingNeedsScaling rows := by
  unfold holdingNeedsScaling maxAbsHolding
  rw [holdings_calc]

theorem scaledHolding_calc (rows : List Row) (h : Option ℚ) :
    scaledHolding (calculate_derived_columns rows) h = scaledHolding rows h := by
  unfold scaledHolding
  rw [needsScaling_calc]

theorem startWtAt_calc (rows : List Row) (i : Nat) :
    startWtAt (calculate_derived_columns rows) i = startWtAt rows i := by
  unfold startWtAt
  rw [priorIndex_calc]
  cases priorIndex rows i with
  | none => rfl
  | some j =>
      show (match ((calculate_derived_columns rows)[j]?).bind
          (fun rj => scaledHolding (calculate_derived_columns rows) rj.holding)
            with
        | some w => w
        | none => 0)
        = (match (rows[j]?).bind (fun rj => scaledHolding rows rj.holding) with
          | some w => w
          | none => 0)
      rw [calc_getElem?]
      cases rows[j]? with
      | none => rfl
      | some rj =>
          show (match scaledHolding (calculate_derived_columns rows) rj.holding
              with
            | some w => w
            | none => 0)
            = (match scaledHolding rows rj.holding with
              | some w => w
              | none => 0)
          rw [scaledHolding_calc]

theorem returnAt_calc (rows : List Row) (i : Nat) :
    returnAt (calculate_derived_columns rows) i = returnAt rows i := by
  unfold returnAt
  rw [startPriceAt_calc]
  cases startPriceAt rows i with
  | none => rfl
  | some p =>
      show (if p = 0 then none
        else (priceAt (calculate_derived_columns rows) i).map fun x => x / p - 1)
        = _
      rw [priceAt_calc]

theorem contributionAt_calc (rows : List Row) (i : Nat) :
    contributionAt (calculate_derived_columns rows) i = contributionAt rows i := by
  unfold contributionAt
  rw [returnAt_calc]
  cases returnAt rows i with
  | none => rfl
  | some ret =>
      show startWtAt (calculate_derived_columns rows) i * ret = _
      rw [startWtAt_calc]

theorem deriveRow_calc (rows : List Row) (i : Nat) (r : Row) :
    deriveRow (calculate_derived_columns rows) i (deriveRow rows i r)
      = deriveRow rows i r := by
  unfold deriveRow
  rw [startPriceAt_calc, returnAt_calc, startWtAt_calc, contributionAt_calc]

theorem calc_calc (rows : List Row) :
    calculate_derived_columns (calculate_derived_columns rows)
      = calculate_derived_columns rows := by
  apply List.ext_getElem?
  intro i
  rw [calc_getElem?, calc_getElem?]
  cases rows[i]? with
  | none => rfl
  | some r =>
      show some (deriveRow (calculate_derived_columns rows) i (deriveRow rows i r))
        = some (deriveRow rows i r)
      rw [deriveRow_calc]

/-- C5.  Derivation is idempotent: a second and a third run of
`calculate_derived_columns` reproduce exactly the table of the first run
— the four derived columns are a pure function of the input columns and
the row order, and are overwritten wholesale on each run. -/
theorem c5_idempotent (rows : List Row) :
    calculate_derived_columns (calculate_derived_columns rows)
      = calculate_derived_columns rows
    ∧ calculate_derived_columns (calculate_derived_columns
        (calculate_derived_columns rows)) = calculate_derived_columns rows := by
  refine ⟨calc_calc rows, ?_⟩
  rw [calc_calc, calc_calc]

/-! ## Cross-tabulation margin identities -/

theorem sum_map_zero (K : List String) (a : String) (v : ℚ) (h : a ∉ K) :
    (K.map (fun d => if a = d then v else 0)).sum = 0 := by
  induction K with
  | nil => rfl
  | cons b K ih =>
      rw [List.map_cons, List.sum_cons,
        if_neg (fun he => h (by rw [he]; exact List.mem_cons_self b K)),
        zero_add]
      exact ih (fun hk => h (List.mem_cons_of_mem b hk))

theorem sum_map_single (K : List String) (hK : K.Nodup) (a : String)
    (ha : a ∈ K) (v : ℚ) :
    (K.map (fun d => if a = d then v else 0)).sum = v := by
  induction K with
  | nil => cases ha
  | cons b K ih =>
      rw [List.map_cons, List.sum_cons]
      rcases List.mem_cons.mp ha with h | h
      · subst h
        rw [if_pos rfl, sum_map_zero K a v (List.nodup_cons.mp hK).1, add_zero]
      · have hne : a ≠ b := fun he => (List.nodup_cons.mp hK).1 (he ▸ h)
        rw [if_neg hne, zero_add]
        exact ih (List.nodup_cons.mp hK).2 h

theorem sum_map_add_distrib (K : List String) (f g : String → ℚ) :
    (K.map (fun d => f d + g d)).sum = (K.map f).sum + (K.map g).sum := by
  induction K with
  | nil => simp
  | cons b K ih =>
      rw [List.map_cons, List.map_cons, List.map_cons, List.sum_cons,
        List.sum_cons, List.sum_cons, ih]
      ring

theorem sum_partition (dim : Row → String) (c : Row → ℚ) (K : List String)
    (hK : K.Nodup) (rows : List Row) (hmem : ∀ r ∈ rows, dim r ∈ K) :
    (K.map (fun d =>
      ((rows.filter (fun r => decide (dim r = d))).map c).sum)).sum
      = (rows.map c).sum := by
  induction rows with
  | nil => simp
  | cons r rows ih =>
      have hr : dim r ∈ K := hmem r (List.mem_cons_self r rows)
      have hrest : ∀ x ∈ rows, dim x ∈ K :=
        fun x hx => hmem x (List.mem_cons_of_mem r hx)
      have hstep : ∀ d ∈ K,
          ((List.filter (fun x => decide (dim x = d)) (r :: rows)).map c).sum
            = (if dim r = d then c r else 0)
              + ((List.filter (fun x => decide (dim x = d)) rows).map c).sum := by
        intro d _
        rw [List.filter_cons]
        by_cases hdr : dim r = d
        · rw [if_pos (decide_eq_true_iff.mpr hdr), List.map_cons, List.sum_cons,
            if_pos hdr]
        · rw [if_neg (by rw [decide_eq_true_iff]; exact hdr), if_neg hdr,
            zero_add]
      rw [List.map_congr_left (fun d hd => hstep d hd), sum_map_add_distrib,
        ih hrest, sum_map_single K hK (dim r) hr (c r), List.map_cons,
        List.sum_cons]

theorem mem_dedupSort (l : List String) (a : String) :
    a ∈ dedupSort l ↔ a ∈ l := by
  unfold dedupSort
  rw [(List.perm_insertionSort _ _).mem_iff, List.mem_dedup]

theorem nodup_dedupSort (l : List String) : (dedupSort l).Nodup :=
  (List.perm_insertionSort _ _).nodup_iff.mpr (List.nodup_dedup l)

theorem keys_filter_margin (l : List String)
    (h : ∀ a ∈ l, a ≠ marginName) :
    (dedupSort l ++ [marginName]).filter (fun d => decide (d ≠ marginName))
      = dedupSort l := by
  rw [List.filter_append]
  have h1 : (dedupSort l).filter (fun d => decide (d ≠ marginName))
      = dedupSort l :=
    List.filter_eq_self.mpr (fun a ha => by
      rw [decide_eq_true_iff]
      exact h a ((mem_dedupSort l a).mp ha))
  have h2 : ([marginName].filter (fun d => decide (d ≠ marginName)))
      = ([] : List String) := by simp
  rw [h1, h2, List.append_nil]

/-- C3.  For every cross-tabulation built by `pivot_table` (hence for the
company, sector and market-cap pivots): data cells are the sum of
weighted contribution over the matching (dimension, month-end) pair and
are `0` when no row matches; the grand-total cell is the sum over the
whole table; every total-row cell is its column's sum over the non-total
row labels; every total-column cell is its row's sum over the non-total
column labels; and the total row and total column come last on their
axes.  (`margins_name` must not collide with a data key, as in pandas.) -/
theorem c3_pivot_margins (dim : Row → String) (rows : List Row)
    (hd : ∀ r ∈ rows, dim r ≠ marginName)
    (hm : ∀ r ∈ rows, r.monthEnd ≠ marginName) :
    ((pivot_table dim rows).rowLabels.getLast? = some marginName
      ∧ (pivot_table dim rows).colLabels.getLast? = some marginName)
    ∧ (∀ d m, d ≠ marginName → m ≠ marginName →
        (pivot_table dim rows).entry d m
          = ((rows.filter (fun r =>
              decide (dim r = d) && decide (r.monthEnd = m))).map
                contribOf).sum)
    ∧ (∀ d m, d ≠ marginName → m ≠ marginName →
        rows.filter (fun r =>
          decide (dim r = d) && decide (r.monthEnd = m)) = [] →
        (pivot_table dim rows).entry d m = 0)
    ∧ (pivot_table dim rows).entry marginName marginName
        = (rows.map contribOf).sum
    ∧ (∀ m, m ≠ marginName →
        (pivot_table dim rows).entry marginName m
          = (((pivot_table dim rows).rowLabels.filter
              (fun d => decide (d ≠ marginName))).map
                (fun d => (pivot_table dim rows).entry d m)).sum)
    ∧ (∀ d, d ≠ marginName →
        (pivot_table dim rows).entry d marginName
          = (((pivot_table dim rows).colLabels.filter
              (fun m => decide (m ≠ marginName))).map
                (fun m => (pivot_table dim rows).entry d m)).sum) := by
  have hcell : ∀ d m, d ≠ marginName → m ≠ marginName →
      (pivot_table dim rows).entry d m = pivotCell dim rows d m := by
    intro d m hd2 hm2
    show (if d = marginName then _ else if m = marginName then _ else
      pivotCell dim rows d m) = _
    rw [if_neg hd2, if_neg hm2]
  refine ⟨⟨List.getLast?_concat _, List.getLast?_concat _⟩, ?_, ?_, ?_, ?_, ?_⟩
  · intro d m hd2 hm2
    rw [hcell d m hd2 hm2]
    rfl
  · intro d m hd2 hm2 hempty
    rw [hcell d m hd2 hm2]
    unfold pivotCell
    rw [hempty]
    rfl
  · show (if marginName = marginName then
      (if marginName = marginName then grandMargin rows
        else colMargin rows marginName)
      else if marginName = marginName then rowMargin dim rows marginName
      else pivotCell dim rows marginName marginName)
        = (rows.map contribOf).sum
    rw [if_pos rfl, if_pos rfl]
    rfl
  · intro m hm2
    have hL : (pivot_table dim rows).entry marginName m = colMargin rows m := by
      show (if marginName = marginName then
        (if m = marginName then grandMargin rows else colMargin rows m)
        else if m = marginName then rowMargin dim rows marginName
        else pivotCell dim rows marginName m) = colMargin rows m
      rw [if_pos rfl, if_neg hm2]
    rw [hL]
    have hlab : (pivot_table dim rows).rowLabels.filter
        (fun d => decide (d ≠ marginName)) = dedupSort (rows.map dim) := by
      apply keys_filter_margin
      intro a ha
      obtain ⟨r, hr, rfl⟩ := List.mem_map.mp ha
      exact hd r hr
    rw [hlab]
    rw [List.map_congr_left (fun d hd2 => hcell d m
      (by
        obtain ⟨r, hr, rfl⟩ :=
          List.mem_map.mp ((mem_dedupSort _ _).mp hd2)
        exact hd r hr)
      hm2)]
    have hpc : ∀ d,
        pivotCell dim rows d m
          = (((rows.filter (fun r => decide (r.monthEnd = m))).filter
              (fun r => decide (dim r = d))).map contribOf).sum := by
      intro d
      rw [List.filter_filter]
      rfl
    rw [List.map_congr_left (fun d _ => hpc d)]
    rw [sum_partition dim contribOf (dedupSort (rows.map dim))
      (nodup_dedupSort _) (rows.filter (fun r => decide (r.monthEnd = m)))
      (fun r hr => (mem_dedupSort _ _).mpr
        (List.mem_map_of_mem dim (List.mem_filter.mp hr).1))]
    rfl
  · intro d hd2
    have hL : (pivot_table dim rows).entry d marginName
        = rowMargin dim rows d := by
      show (if d = marginName then
        (if marginName = marginName then grandMargin rows
          else colMargin rows marginName)
        else if marginName = marginName then rowMargin dim rows d
        else pivotCell dim rows d marginName) = rowMargin dim rows d
      rw [if_neg hd2, if_pos rfl]
    rw [hL]
    have hlab : (pivot_table dim rows).colLabels.filter
        (fun m => decide (m ≠ marginName))
          = dedupSort (rows.map Row.monthEnd) := by
      apply keys_filter_margin
      intro a ha
      obtain ⟨r, hr, rfl⟩ := List.mem_map.mp ha
      exact hm r hr
    rw [hlab]
    rw [List.map_congr_left (fun m hm2 => hcell d m hd2
      (by
        obtain ⟨r, hr, rfl⟩ :=
          List.mem_map.mp ((mem_dedupSort _ _).mp hm2)
        exact hm r hr))]
    have hpc : ∀ m,
        pivotCell dim rows d m
          = (((rows.filter (fun r => decide (dim r = d))).filter
              (fun r => decide (r.monthEnd = m))).map contribOf).sum := by
      intro m
      unfold pivotCell
      rw [List.filter_filter]
      congr 2
      apply List.filter_congr
      intro r _
      rw [Bool.and_comm]
    rw [List.map_congr_left (fun m _ => hpc m)]
    rw [sum_partition Row.monthEnd contribOf (dedupSort (rows.map Row.monthEnd))
      (nodup_dedupSort _) (rows.filter (fun r => decide (dim r = d)))
      (fun r hr => (mem_dedupSort _ _).mpr
        (List.mem_map_of_mem Row.monthEnd (List.mem_filter.mp hr).1))]
    rfl

/-- Witness for C3: the company pivot of the two-instrument table
`w3rows` satisfies every margin identity. -/
theorem c3_witness :
    (∀ r ∈ w3rows, Row.instrumentName r ≠ marginName)
    ∧ (∀ r ∈ w3rows, r.monthEnd ≠ marginName)
    ∧ (((pivot_table Row.instrumentName w3rows).rowLabels.getLast?
          = some marginName
        ∧ (pivot_table Row.instrumentName w3rows).colLabels.getLast?
          = some marginName)
      ∧ (∀ d m, d ≠ marginName → m ≠ marginName →
          (pivot_table Row.instrumentName w3rows).entry d m
            = ((w3rows.filter (fun r =>
                decide (Row.instrumentName r = d)
                  && decide (r.monthEnd = m))).map contribOf).sum)
      ∧ (∀ d m, d ≠ marginName → m ≠ marginName →
          w3rows.filter (fun r =>
            decide (Row.instrumentName r = d)
              && decide (r.monthEnd = m)) = [] →
          (pivot_table Row.instrumentName w3rows).entry d m = 0)
      ∧ (pivot_table Row.instrumentName w3rows).entry marginName marginName
          = (w3rows.map contribOf).sum
      ∧ (∀ m, m ≠ marginName →
          (pivot_table Row.instrumentName w3rows).entry marginName m
            = (((pivot_table Row.instrumentName w3rows).rowLabels.filter
                (fun d => decide (d ≠ marginName))).map
                  (fun d =>
                    (pivot_table Row.instrumentName w3rows).entry d m)).sum)
      ∧ (∀ d, d ≠ marginName →
          (pivot_table Row.instrumentName w3rows).entry d marginName
            = (((pivot_table Row.instrumentName w3rows).colLabels.filter
                (fun m => decide (m ≠ marginName))).map
                  (fun m =>
                    (pivot_table Row.instrumentName w3rows).entry d m)).sum)) := by
  have hd : ∀ r ∈ w3rows, Row.instrumentName r ≠ marginName := by
    with_unfolding_all decide
  have hm : ∀ r ∈ w3rows, r.monthEnd ≠ marginName := by
    with_unfolding_all decide
  exact ⟨hd, hm, c3_pivot_margins Row.instrumentName w3rows hd hm⟩

/-! ## Loader validation and sorting -/

/-- C6 counterexample.  On a source with zero rows and a missing required
column (`Price`), `load_data` raises the empty-input error, not the
schema error: the claim's "SchemaError whenever a required column is
absent" fails in the overlap case because the `df.empty` check precedes
`_validate_columns`. -/
theorem c6_counterexample :
    "Price" ∈ missingColumns c6cex
    ∧ load_data c6cex = .error .emptyInput
    ∧ load_data c6cex
        ≠ .error (.schemaError (missingColumns c6cex) c6cex.columns) := by
  refine ⟨by with_unfolding_all decide, by with_unfolding_all decide,
    by with_unfolding_all decide⟩

/-- C6 (amended).  `load_data` fails with the empty-input error whenever
the source has zero rows (this check runs first); with at least one row
and one or more required columns absent it fails with the schema error
carrying exactly the missing required columns and the columns actually
found; with at least one row and all required columns present it
succeeds. -/
theorem c6_load_validation (input : RawInput) :
    (input.rows = [] → load_data input = .error .emptyInput)
    ∧ (input.rows ≠ [] → missingColumns input ≠ [] →
        load_data input
          = .error (.schemaError (missingColumns input) input.columns))
    ∧ (input.rows ≠ [] → missingColumns input = [] →
        ∃ t, load_data input = .ok t)
    ∧ (∀ c, c ∈ missingColumns input ↔
        (c ∈ REQUIRED_COLUMNS ∧ c ∉ input.columns)) := by
  unfold load_data
  refine ⟨?_, ?_, ?_, ?_⟩
  · intro h
    rw [if_pos (List.isEmpty_iff.mpr h)]
  · intro h1 h2
    rw [if_neg (fun hh => h1 (List.isEmpty_iff.mp hh)), if_pos h2]
  · intro h1 h2
    rw [if_neg (fun hh => h1 (List.isEmpty_iff.mp hh)),
      if_neg (fun hne => hne h2)]
    exact ⟨_, rfl⟩
  · intro c
    unfold missingColumns
    rw [List.mem_filter, decide_eq_true_iff]

/-- Witness for C6 (amended) at `w6input`: schema-complete, one row,
loading succeeds. -/
theorem c6_witness :
    w6input.rows ≠ []
    ∧ missingColumns w6input = []
    ∧ ∃ t, load_data w6input = .ok t := by
  have h1 : w6input.rows ≠ [] := by with_unfolding_all decide
  have h2 : missingColumns w6input = [] := by with_unfolding_all decide
  exact ⟨h1, h2, (c6_load_validation w6input).2.2.1 h1 h2⟩

/-- C8.  Whenever loading succeeds, the resulting table is sorted by the
two-key ascending order (instrument name lexicographic, then month label
under its native string comparison), holds exactly the source's rows,
and its row positions are renumbered contiguously `0, 1, 2, ...`. -/
theorem c8_sorted_reindexed (input : RawInput) (t : List (Nat × Row))
    (h : load_data input = .ok t) :
    t.map Prod.fst = List.range t.length
    ∧ List.Sorted keyLE (t.map Prod.snd)
    ∧ (t.map Prod.snd).Perm input.rows := by
  unfold load_data at h
  by_cases h1 : input.rows.isEmpty = true
  · rw [if_pos h1] at h
    cases h
  · rw [if_neg h1] at h
    by_cases h2 : missingColumns input ≠ []
    · rw [if_pos h2] at h
      cases h
    · rw [if_neg h2] at h
      have ht : t = (sortRows input.rows).enum := (Except.ok.inj h).symm
      subst ht
      refine ⟨?_, ?_, ?_⟩
      · rw [List.enum_map_fst, List.enum_length]
      · rw [List.enum_map_snd]
        exact List.sorted_insertionSort keyLE input.rows
      · rw [List.enum_map_snd]
        exact List.perm_insertionSort keyLE input.rows

/-- Witness for C8 at `w8input`: the two out-of-order rows come back
sorted by instrument and renumbered `0, 1`. -/
theorem c8_witness :
    load_data w8input = .ok w8t
    ∧ (w8t.map Prod.fst = List.range w8t.length
      ∧ List.Sorted keyLE (w8t.map Prod.snd)
      ∧ (w8t.map Prod.snd).Perm w8input.rows) := by
  have h : load_data w8input = .ok w8t := by with_unfolding_all decide
  exact ⟨h, c8_sorted_reindexed w8input w8t h⟩

/-- C9.  A failure inside percentage display formatting is non-fatal:
`save_output` still returns the artifact with the four named sheets in
order, the stored values untouched (raw numerics, formatting flag off),
and the failure recorded as a warning rather than an abort. -/
theorem c9_formatting_nonfatal (rows : List Row)
    (ps : CrossTab × CrossTab × CrossTab) :
    save_output rows ps false true =
      .ok { sheetNames := ["Processed Data", "Company Pivot", "Sector Pivot",
                           "Market Cap Pivot"],
            processedData := rows,
            companyPivot := ps.1,
            sectorPivot := ps.2.1,
            marketCapPivot := ps.2.2,
            percentFormatted := false,
            warnings := ["Could not format percentage columns"] } := rfl

end FundAnalysis
